import Mathlib

/-!
# Verification of the edgar-rs client library

Shallow embedding of the parts of the edgar-rs repository that the
specification's claims are about, together with theorems settling each
claim.  Rust strings are modelled as `List Char` (all the strings the
library manipulates are ASCII, and every pattern searched for starts with
an ASCII byte, so byte indices and character indices coincide on the
relevant slices).  Rust `uN` parsing and formatting are modelled on `Nat`
with explicit bound checks where the source checks for overflow.
-/

namespace EdgarRs

/-! ## Decimal digits and numerals

Models of `char::is_ascii_digit`, of `str::parse::<uN>` and of the decimal
`Display` formatting used by `format!` in the source. -/

/-- The ten ASCII digit characters, as a partial inverse of `Nat.digitChar`.
`charToDigit c = some d` exactly when `c` is the ASCII digit for `d`. -/
def charToDigit (c : Char) : Option Nat :=
  if c = '0' then some 0
  else if c = '1' then some 1
  else if c = '2' then some 2
  else if c = '3' then some 3
  else if c = '4' then some 4
  else if c = '5' then some 5
  else if c = '6' then some 6
  else if c = '7' then some 7
  else if c = '8' then some 8
  else if c = '9' then some 9
  else none

/-- Model of Rust's `char::is_ascii_digit` (true exactly on `'0'..='9'`). -/
def isAsciiDigit (c : Char) : Bool :=
  (charToDigit c).isSome

/-- Digit value of a character, defaulting to 0 (only used under an
`isAsciiDigit` guard). -/
def digitOf (c : Char) : Nat :=
  (charToDigit c).getD 0

/-- Big-endian value of a digit-character string, with accumulator:
the value of `acc` followed by the digits `l`. -/
def charsValAux (acc : Nat) : List Char → Nat
  | [] => acc
  | c :: t => charsValAux (10 * acc + digitOf c) t

/-- Big-endian numeric value of a digit-character string. -/
def charsVal (l : List Char) : Nat := charsValAux 0 l

/-- Decimal numeral of a natural number, most significant digit first.
This is the output of Rust's `Display` for unsigned integers. -/
def decimal (n : Nat) : List Char :=
  if _h : n < 10 then [Nat.digitChar n]
  else decimal (n / 10) ++ [Nat.digitChar (n % 10)]
  decreasing_by
    exact Nat.div_lt_self (by omega) (by omega)

/-- Model of the sign handling of Rust's `str::parse::<uN>` for unsigned
integers: a single leading `'+'` is accepted and discarded. -/
def stripPlus : List Char → List Char
  | '+' :: t => t
  | l => l

/-- Model of Rust's `str::parse::<uN>().ok()` where `bound` is `uN::MAX`:
after discarding an optional leading `'+'`, the string must be a nonempty
sequence of ASCII digits whose value does not overflow. -/
def parseNat? (bound : Nat) (l : List Char) : Option Nat :=
  let l' := stripPlus l
  if l'.isEmpty then none
  else if l'.all isAsciiDigit then
    let v := charsVal l'
    if v ≤ bound then some v else none
  else none

/-! ### Lemmas about digits and numerals -/

theorem charToDigit_digitChar {d : Nat} (h : d < 10) :
    charToDigit (Nat.digitChar d) = some d := by
  interval_cases d <;> rfl

theorem digitOf_digitChar {d : Nat} (h : d < 10) :
    digitOf (Nat.digitChar d) = d := by
  simp [digitOf, charToDigit_digitChar h]

theorem isAsciiDigit_digitChar {d : Nat} (h : d < 10) :
    isAsciiDigit (Nat.digitChar d) = true := by
  simp [isAsciiDigit, charToDigit_digitChar h]

theorem charToDigit_eq_some {c : Char} {d : Nat} (h : charToDigit c = some d) :
    c = Nat.digitChar d ∧ d < 10 := by
  unfold charToDigit at h
  split_ifs at h with h0 h1 h2 h3 h4 h5 h6 h7 h8 h9
  all_goals try (injection h with hd; subst hd; subst_vars; exact ⟨by decide, by decide⟩)

theorem digitOf_lt_ten {c : Char} (h : isAsciiDigit c = true) : digitOf c < 10 := by
  rw [isAsciiDigit, Option.isSome_iff_exists] at h
  obtain ⟨d, hd⟩ := h
  have h2 := charToDigit_eq_some hd
  rw [digitOf, hd]
  simpa using h2.2

theorem isAsciiDigit_ne_of_not {c x : Char} (h : isAsciiDigit c = true)
    (hx : isAsciiDigit x = false) : c ≠ x := by
  intro e; subst e; simp [h] at hx

theorem charsValAux_eq (a : Nat) (l : List Char) :
    charsValAux a l = a * 10 ^ l.length + charsVal l := by
  induction l generalizing a with
  | nil => simp [charsValAux, charsVal]
  | cons c t ih =>
    simp only [charsValAux, charsVal, List.length_cons]
    rw [ih (10 * a + digitOf c), ih (10 * 0 + digitOf c)]
    ring

theorem charsVal_cons (c : Char) (t : List Char) :
    charsVal (c :: t) = digitOf c * 10 ^ t.length + charsVal t := by
  show charsValAux (10 * 0 + digitOf c) t = _
  rw [charsValAux_eq]
  ring_nf

theorem charsVal_lt (l : List Char) (h : ∀ c ∈ l, isAsciiDigit c = true) :
    charsVal l < 10 ^ l.length := by
  induction l with
  | nil => simp [charsVal, charsValAux]
  | cons c t ih =>
    rw [charsVal_cons]
    have hc : digitOf c < 10 := digitOf_lt_ten (h c (by simp))
    have ht := ih (fun x hx => h x (by simp [hx]))
    have : digitOf c * 10 ^ t.length + charsVal t <
        digitOf c * 10 ^ t.length + 10 ^ t.length := by omega
    calc digitOf c * 10 ^ t.length + charsVal t
        < (digitOf c + 1) * 10 ^ t.length := by nlinarith
      _ ≤ 10 * 10 ^ t.length := by
          have : digitOf c + 1 ≤ 10 := by omega
          exact Nat.mul_le_mul_right _ this
      _ = 10 ^ (t.length + 1) := by ring
      _ = 10 ^ (c :: t).length := by simp

theorem charsVal_append (l1 l2 : List Char) :
    charsVal (l1 ++ l2) = charsVal l1 * 10 ^ l2.length + charsVal l2 := by
  induction l1 with
  | nil => simp [charsVal, charsValAux]
  | cons c t ih =>
    simp only [List.cons_append, charsVal_cons, ih, List.length_append]
    ring

theorem decimal_ne_nil (n : Nat) : decimal n ≠ [] := by
  rw [decimal]
  split <;> simp

theorem decimal_all_digits (n : Nat) : ∀ c ∈ decimal n, isAsciiDigit c = true := by
  induction n using Nat.strong_induction_on with
  | _ n ih =>
    rw [decimal]
    split
    · intro c hc
      simp at hc
      subst hc
      exact isAsciiDigit_digitChar (by omega)
    · intro c hc
      simp at hc
      rcases hc with hc | hc
      · exact ih (n / 10) (Nat.div_lt_self (by omega) (by omega)) c hc
      · subst hc
        exact isAsciiDigit_digitChar (Nat.mod_lt _ (by omega))

theorem charsVal_decimal (n : Nat) : charsVal (decimal n) = n := by
  induction n using Nat.strong_induction_on with
  | _ n ih =>
    rw [decimal]
    split
    · rename_i h
      simp [charsVal, charsValAux, digitOf_digitChar h]
    · rename_i h
      rw [charsVal_append]
      have h1 : charsVal (decimal (n / 10)) = n / 10 :=
        ih (n / 10) (Nat.div_lt_self (by omega) (by omega))
      have h2 : charsVal [Nat.digitChar (n % 10)] = n % 10 := by
        simp [charsVal, charsValAux, digitOf_digitChar (Nat.mod_lt n (by omega))]
      rw [h1, h2]
      simp
      omega

theorem decimal_length_le {n k : Nat} (hk : 0 < k) (h : n < 10 ^ k) :
    (decimal n).length ≤ k := by
  induction n using Nat.strong_induction_on generalizing k with
  | _ n ih =>
    rw [decimal]
    split
    · simpa using hk
    · rename_i hn
      have hk2 : 2 ≤ k := by
        by_contra hlt
        have : k = 1 := by omega
        subst this
        simp at h
        omega
      have hdiv : n / 10 < 10 ^ (k - 1) := by
        rw [Nat.div_lt_iff_lt_mul (by omega)]
        calc n < 10 ^ k := h
          _ = 10 ^ (k - 1) * 10 := by
            rw [← Nat.pow_succ]
            congr 1
            omega
      have := ih (n / 10) (Nat.div_lt_self (by omega) (by omega)) (k := k - 1)
        (by omega) hdiv
      simp only [List.length_append, List.length_cons, List.length_nil]
      omega

/-- Equal-length digit strings with equal value are equal. -/
theorem digit_chars_val_inj : ∀ (l1 l2 : List Char), l1.length = l2.length →
    (∀ c ∈ l1, isAsciiDigit c = true) → (∀ c ∈ l2, isAsciiDigit c = true) →
    charsVal l1 = charsVal l2 → l1 = l2 := by
  intro l1
  induction l1 with
  | nil =>
    intro l2 hlen _ _ _
    cases l2 with
    | nil => rfl
    | cons c t => simp at hlen
  | cons c1 t1 ih =>
    intro l2 hlen hd1 hd2 hval
    cases l2 with
    | nil => simp at hlen
    | cons c2 t2 =>
      simp only [List.length_cons] at hlen
      have hlen' : t1.length = t2.length := by omega
      rw [charsVal_cons, charsVal_cons, hlen'] at hval
      have hb1 : charsVal t1 < 10 ^ t2.length := by
        rw [← hlen']
        exact charsVal_lt t1 (fun x hx => hd1 x (by simp [hx]))
      have hb2 : charsVal t2 < 10 ^ t2.length :=
        charsVal_lt t2 (fun x hx => hd2 x (by simp [hx]))
      have hc1d : digitOf c1 < 10 := digitOf_lt_ten (hd1 c1 (by simp))
      have hc2d : digitOf c2 < 10 := digitOf_lt_ten (hd2 c2 (by simp))
      have hM : 0 < 10 ^ t2.length := Nat.pos_pow_of_pos _ (by omega)
      -- From d1 * M + v1 = d2 * M + v2 with v1, v2 < M conclude d1 = d2, v1 = v2.
      have ediv : ∀ a v : Nat, v < 10 ^ t2.length →
          (a * 10 ^ t2.length + v) / 10 ^ t2.length = a := by
        intro a v hv
        rw [Nat.mul_comm a (10 ^ t2.length), Nat.mul_add_div hM,
          Nat.div_eq_of_lt hv]
        omega
      have hdig : digitOf c1 = digitOf c2 := by
        rw [← ediv (digitOf c1) (charsVal t1) hb1,
          ← ediv (digitOf c2) (charsVal t2) hb2, hval]
      have hvals : charsVal t1 = charsVal t2 := by
        have := hval
        rw [hdig] at this
        omega
      have hchar : c1 = c2 := by
        have h1 : ∃ d, charToDigit c1 = some d := by
          have := hd1 c1 (by simp)
          simpa [isAsciiDigit, Option.isSome_iff_exists] using this
        have h2 : ∃ d, charToDigit c2 = some d := by
          have := hd2 c2 (by simp)
          simpa [isAsciiDigit, Option.isSome_iff_exists] using this
        obtain ⟨d1, hd1'⟩ := h1
        obtain ⟨d2, hd2'⟩ := h2
        have e1 := charToDigit_eq_some hd1'
        have e2 := charToDigit_eq_some hd2'
        have : d1 = d2 := by
          have : digitOf c1 = d1 := by simp [digitOf, hd1']
          have h2' : digitOf c2 = d2 := by simp [digitOf, hd2']
          omega
        rw [e1.1, e2.1, this]
      rw [hchar]
      congr 1
      exact ih t2 hlen' (fun x hx => hd1 x (by simp [hx]))
        (fun x hx => hd2 x (by simp [hx])) hvals

theorem stripPlus_of_all_digits {l : List Char}
    (h : ∀ c ∈ l, isAsciiDigit c = true) : stripPlus l = l := by
  cases l with
  | nil => rfl
  | cons c t =>
    have hc : c ≠ '+' := by
      have := h c (by simp)
      exact isAsciiDigit_ne_of_not this (by rfl)
    unfold stripPlus
    split
    · rename_i heq
      simp at heq
      exact absurd heq.1 hc
    · rfl

theorem parseNat?_of_digits {l : List Char} {bound : Nat} (hne : l ≠ [])
    (hdig : ∀ c ∈ l, isAsciiDigit c = true) :
    parseNat? bound l = if charsVal l ≤ bound then some (charsVal l) else none := by
  unfold parseNat?
  rw [stripPlus_of_all_digits hdig]
  simp only [List.isEmpty_iff]
  rw [if_neg hne, if_pos (by simpa [List.all_eq_true] using hdig)]

theorem parseNat?_decimal {n bound : Nat} :
    parseNat? bound (decimal n) =
      if n ≤ bound then some n else none := by
  rw [parseNat?_of_digits (decimal_ne_nil n) (decimal_all_digits n),
    charsVal_decimal]

/-! ## `format_cik` (src/utils/cik.rs)

`format_cik` strips every character that is not an ASCII digit, rejects the
empty and the more-than-10-digit results, parses the rest as `u64` and
formats it with `format!("{:010}", v)` (zero-pad on the left to width 10). -/

/-- Zero-pad a string on the left to width 10; model of `format!("{:010}", v)`
applied to the decimal numeral of `v`. -/
def padLeft10 (l : List Char) : List Char :=
  List.replicate (10 - l.length) '0' ++ l

/-- Model of `format_cik` from src/utils/cik.rs. -/
def format_cik (cik : List Char) : Except String (List Char) :=
  let clean := cik.filter isAsciiDigit
  if clean.isEmpty then .error "CIK must contain at least one digit"
  else if clean.length > 10 then .error "CIK cannot be longer than 10 digits"
  else
    match parseNat? (2 ^ 64 - 1) clean with
    | none => .error "Invalid CIK format"
    | some v => .ok (padLeft10 (decimal v))

/-- Model of `is_valid_cik` from src/utils/cik.rs. -/
def is_valid_cik (cik : List Char) : Bool :=
  match format_cik cik with
  | .ok _ => true
  | .error _ => false

theorem charsVal_replicate_zero (k : Nat) (l : List Char) :
    charsVal (List.replicate k '0' ++ l) = charsVal l := by
  induction k with
  | zero => simp
  | succ k ih =>
    have : List.replicate (k + 1) '0' ++ l = '0' :: (List.replicate k '0' ++ l) := by
      simp [List.replicate_succ]
    rw [this, charsVal_cons, ih]
    have : digitOf '0' = 0 := rfl
    simp [this]

theorem padLeft10_all_digits {l : List Char}
    (h : ∀ c ∈ l, isAsciiDigit c = true) :
    ∀ c ∈ padLeft10 l, isAsciiDigit c = true := by
  intro c hc
  simp only [padLeft10, List.mem_append, List.mem_replicate] at hc
  rcases hc with hc | hc
  · rw [hc.2]; rfl
  · exact h c hc

theorem padLeft10_length {l : List Char} (h : l.length ≤ 10) :
    (padLeft10 l).length = 10 := by
  simp [padLeft10]
  omega

/-- The padded Rust output coincides with the claim's "digit sequence
left-padded with zeros": both are length-10 digit strings with the same
numeric value. -/
theorem padLeft10_decimal_charsVal {ds : List Char}
    (hlen : ds.length ≤ 10)
    (hdig : ∀ c ∈ ds, isAsciiDigit c = true) :
    padLeft10 (decimal (charsVal ds)) = padLeft10 ds := by
  have hval : charsVal ds < 10 ^ 10 := by
    calc charsVal ds < 10 ^ ds.length := charsVal_lt ds hdig
      _ ≤ 10 ^ 10 := Nat.pow_le_pow_right (by omega) hlen
  have hdl : (decimal (charsVal ds)).length ≤ 10 :=
    decimal_length_le (by omega) hval
  apply digit_chars_val_inj
  · rw [padLeft10_length hdl, padLeft10_length hlen]
  · exact padLeft10_all_digits (decimal_all_digits _)
  · exact padLeft10_all_digits hdig
  · simp only [padLeft10]
    rw [charsVal_replicate_zero, charsVal_replicate_zero, charsVal_decimal]

/-- **C3.** For every input string, `format_cik` first discards every
character that is not an ASCII digit; it errors when no digit remains or
when more than 10 digits remain, and otherwise returns `Ok` of the
remaining digit sequence left-padded with zeros to exactly 10 characters.
In particular `format_cik "320193" = Ok "0000320193"`, `format_cik ""`
errors, and an input of 11 digits errors. -/
theorem C3_format_cik (s : List Char) :
    (s.filter isAsciiDigit = [] →
      format_cik s = .error "CIK must contain at least one digit") ∧
    ((s.filter isAsciiDigit).length > 10 →
      format_cik s = .error "CIK cannot be longer than 10 digits") ∧
    (s.filter isAsciiDigit ≠ [] → (s.filter isAsciiDigit).length ≤ 10 →
      format_cik s =
        .ok (List.replicate (10 - (s.filter isAsciiDigit).length) '0' ++
          s.filter isAsciiDigit) ∧
      ∃ out, format_cik s = .ok out ∧ out.length = 10) := by
  refine ⟨?_, ?_, ?_⟩
  · intro h
    unfold format_cik
    simp [h]
  · intro h
    unfold format_cik
    have hne : ¬ (s.filter isAsciiDigit).isEmpty = true := by
      simp only [List.isEmpty_iff]
      intro he
      rw [he] at h
      simp at h
    simp only [hne, if_false, List.isEmpty_iff]
    rw [if_neg (by simp_all [List.isEmpty_iff]), if_pos h]
  · intro hne hlen
    have hdig : ∀ c ∈ s.filter isAsciiDigit, isAsciiDigit c = true := by
      intro c hc
      exact (List.mem_filter.mp hc).2
    have hval : charsVal (s.filter isAsciiDigit) < 10 ^ 10 := by
      calc charsVal _ < 10 ^ (s.filter isAsciiDigit).length :=
            charsVal_lt _ hdig
        _ ≤ 10 ^ 10 := Nat.pow_le_pow_right (by omega) hlen
    have hbound : charsVal (s.filter isAsciiDigit) ≤ 2 ^ 64 - 1 := by
      have : (10 : Nat) ^ 10 ≤ 2 ^ 64 - 1 := by norm_num
      omega
    have hmain : format_cik s =
        .ok (padLeft10 (decimal (charsVal (s.filter isAsciiDigit)))) := by
      unfold format_cik
      rw [if_neg (by simpa [List.isEmpty_iff] using hne),
        if_neg (by omega)]
      rw [parseNat?_of_digits hne hdig, if_pos hbound]
    constructor
    · rw [hmain, padLeft10_decimal_charsVal hlen hdig]
      rfl
    · refine ⟨_, hmain, ?_⟩
      have : (decimal (charsVal (s.filter isAsciiDigit))).length ≤ 10 :=
        decimal_length_le (by omega) hval
      exact padLeft10_length this

/-- **C3 witness.** Concrete instances: `"320193"` formats to
`"0000320193"`, the empty string errors, and an 11-digit input errors. -/
theorem C3_format_cik_witness :
    format_cik "320193".toList = .ok "0000320193".toList ∧
    format_cik "".toList = .error "CIK must contain at least one digit" ∧
    format_cik "12345678901".toList = .error "CIK cannot be longer than 10 digits" := by
  refine ⟨?_, ?_, ?_⟩
  · have h := (C3_format_cik "320193".toList).2.2 (by decide) (by decide)
    rw [h.1]
    rfl
  · exact (C3_format_cik "".toList).1 (by decide)
  · exact (C3_format_cik "12345678901".toList).2.1 (by decide)

/-! ## `Period` (src/types.rs)

Reporting periods `CY{y}`, `CY{y}Q{q}`, `CY{y}Q{q}I` with their `Display`
formatting (`as_str`) and `Period::from_str`. Year is a Rust `u16`,
quarter a `u8`; the Lean model carries `Nat` values and states the
`u16`/`u8` ranges as the well-formedness of a constructible value. -/

inductive Period where
  | annual (year : Nat)
  | quarterly (year quarter : Nat)
  | instantaneous (year quarter : Nat)
  deriving DecidableEq, Repr

/-- Model of the `Display` implementation / `Period::as_str`. -/
def Period.asStr : Period → List Char
  | .annual y => 'C' :: 'Y' :: decimal y
  | .quarterly y q => 'C' :: 'Y' :: (decimal y ++ 'Q' :: decimal q)
  | .instantaneous y q => 'C' :: 'Y' :: (decimal y ++ 'Q' :: (decimal q ++ ['I']))

/-- A period value constructible in the Rust type: year fits `u16`,
quarter fits `u8`. -/
def Period.wfRanges : Period → Prop
  | .annual y => y ≤ 65535
  | .quarterly y q => y ≤ 65535 ∧ q ≤ 255
  | .instantaneous y q => y ≤ 65535 ∧ q ≤ 255

/-- Model of `str::find('Q')`: index of the first occurrence of `'Q'`. -/
def findQ : List Char → Option Nat
  | [] => none
  | c :: t => if c = 'Q' then some 0 else (findQ t).map (· + 1)

/-- The quarter-handling part of `Period::from_str`: `remainder` is the
slice after the first `'Q'`; an ending `'I'` selects the instantaneous
form, otherwise the quarterly form; the quarter is parsed as `u8` and must
lie in `[1,4]`, otherwise the function falls through to `None`. -/
def Period.parseQuarterPart (year : Nat) (rem : List Char) : Option Period :=
  if rem.getLast? = some 'I' then
    match parseNat? 255 rem.dropLast with
    | none => none
    | some quarter =>
      if 1 ≤ quarter ∧ quarter ≤ 4 then some (.instantaneous year quarter)
      else none
  else
    match parseNat? 255 rem with
    | none => none
    | some quarter =>
      if 1 ≤ quarter ∧ quarter ≤ 4 then some (.quarterly year quarter)
      else none

/-- The branch of `Period::from_str` taken when `'Q'` was found: `ys` is
the slice before the `'Q'` (parsed as the `u16` year), `rem` the slice
after it. -/
def Period.fromStrWithQ (ys rem : List Char) : Option Period :=
  match parseNat? 65535 ys with
  | none => none
  | some year => Period.parseQuarterPart year rem

/-- Body of `Period::from_str` after `starts_with("CY")` succeeded and the
`"CY"` prefix was removed (`&s[2..]`). -/
def Period.fromStrBody (s : List Char) : Option Period :=
  match findQ s with
  | some i => Period.fromStrWithQ (s.take i) (s.drop (i + 1))
  | none => (parseNat? 65535 s).map .annual

/-- Model of `Period::from_str` from src/types.rs. -/
def Period.fromStr : List Char → Option Period
  | 'C' :: 'Y' :: s => Period.fromStrBody s
  | _ => none

theorem Period.fromStrBody_findQ_some {s : List Char} {i : Nat}
    (h : findQ s = some i) :
    Period.fromStrBody s = Period.fromStrWithQ (s.take i) (s.drop (i + 1)) := by
  unfold Period.fromStrBody
  rw [h]

theorem Period.fromStrBody_findQ_none {s : List Char} (h : findQ s = none) :
    Period.fromStrBody s = (parseNat? 65535 s).map .annual := by
  unfold Period.fromStrBody
  rw [h]

theorem Period.fromStrWithQ_year_some {ys rem : List Char} {y : Nat}
    (h : parseNat? 65535 ys = some y) :
    Period.fromStrWithQ ys rem = Period.parseQuarterPart y rem := by
  unfold Period.fromStrWithQ
  rw [h]

theorem Period.fromStrWithQ_year_none {ys rem : List Char}
    (h : parseNat? 65535 ys = none) :
    Period.fromStrWithQ ys rem = none := by
  unfold Period.fromStrWithQ
  rw [h]

theorem Period.parseQuarterPart_inst {y : Nat} {rem : List Char} {q : Nat}
    (hI : rem.getLast? = some 'I') (hq : parseNat? 255 rem.dropLast = some q) :
    Period.parseQuarterPart y rem =
      if 1 ≤ q ∧ q ≤ 4 then some (.instantaneous y q) else none := by
  unfold Period.parseQuarterPart
  rw [if_pos hI, hq]

theorem Period.parseQuarterPart_inst_fail {y : Nat} {rem : List Char}
    (hI : rem.getLast? = some 'I') (hq : parseNat? 255 rem.dropLast = none) :
    Period.parseQuarterPart y rem = none := by
  unfold Period.parseQuarterPart
  rw [if_pos hI, hq]

theorem Period.parseQuarterPart_qtr {y : Nat} {rem : List Char} {q : Nat}
    (hI : rem.getLast? ≠ some 'I') (hq : parseNat? 255 rem = some q) :
    Period.parseQuarterPart y rem =
      if 1 ≤ q ∧ q ≤ 4 then some (.quarterly y q) else none := by
  unfold Period.parseQuarterPart
  rw [if_neg hI, hq]

theorem Period.parseQuarterPart_qtr_fail {y : Nat} {rem : List Char}
    (hI : rem.getLast? ≠ some 'I') (hq : parseNat? 255 rem = none) :
    Period.parseQuarterPart y rem = none := by
  unfold Period.parseQuarterPart
  rw [if_neg hI, hq]

theorem isAsciiDigit_ne_Q {c : Char} (h : isAsciiDigit c = true) : c ≠ 'Q' :=
  isAsciiDigit_ne_of_not h (by rfl)

theorem isAsciiDigit_ne_I {c : Char} (h : isAsciiDigit c = true) : c ≠ 'I' :=
  isAsciiDigit_ne_of_not h (by rfl)

theorem findQ_eq_none {l : List Char} (h : ∀ c ∈ l, c ≠ 'Q') :
    findQ l = none := by
  induction l with
  | nil => rfl
  | cons c t ih =>
    unfold findQ
    rw [if_neg (h c (by simp)), ih (fun x hx => h x (by simp [hx]))]
    rfl

theorem findQ_append_q {l1 l2 : List Char} (h : ∀ c ∈ l1, c ≠ 'Q') :
    findQ (l1 ++ 'Q' :: l2) = some l1.length := by
  induction l1 with
  | nil => simp [findQ]
  | cons c t ih =>
    unfold findQ
    simp only [List.cons_append]
    rw [if_neg (h c (by simp)), ih (fun x hx => h x (by simp [hx]))]
    rfl

theorem drop_append_cons {α : Type} (l1 : List α) (c : α) (l2 : List α) :
    (l1 ++ c :: l2).drop (l1.length + 1) = l2 := by
  rw [show l1 ++ c :: l2 = (l1 ++ [c]) ++ l2 by simp]
  exact List.drop_left' (by simp)

theorem decimal_digit {n : Nat} (h : n < 10) : decimal n = [Nat.digitChar n] := by
  rw [decimal]
  simp [h]

theorem all_digits_getLast?_ne_I {l : List Char}
    (h : ∀ c ∈ l, isAsciiDigit c = true) : l.getLast? ≠ some 'I' := by
  induction l with
  | nil => simp
  | cons c t ih =>
    cases t with
    | nil =>
      simp only [List.getLast?_singleton]
      intro e
      injection e with e
      exact isAsciiDigit_ne_I (h c (by simp)) e
    | cons b t' =>
      rw [List.getLast?_cons_cons]
      exact ih (fun x hx => h x (by simp [List.mem_cons] at hx ⊢; tauto))

theorem decimal_no_Q (n : Nat) : ∀ c ∈ decimal n, c ≠ 'Q' :=
  fun c hc => isAsciiDigit_ne_Q (decimal_all_digits n c hc)

/-- **C4.** Round-trip of `Period` formatting and parsing: every
constructible period with quarter in `[1,4]` satisfies
`from_str (as_str p) = some p`, and every string `CY{y}Q{q}` or
`CY{y}Q{q}I` whose quarter numeral is outside `[1,4]` parses to `none`. -/
theorem C4_period_roundtrip :
    (∀ p : Period, p.wfRanges →
      (∀ y q, p = .quarterly y q → 1 ≤ q ∧ q ≤ 4) →
      (∀ y q, p = .instantaneous y q → 1 ≤ q ∧ q ≤ 4) →
      Period.fromStr p.asStr = some p) ∧
    (∀ y q : Nat, (q < 1 ∨ 4 < q) →
      Period.fromStr ('C' :: 'Y' :: (decimal y ++ 'Q' :: decimal q)) = none ∧
      Period.fromStr ('C' :: 'Y' :: (decimal y ++ 'Q' :: (decimal q ++ ['I']))) = none) := by
  have hbodyQ : ∀ y q : Nat, y ≤ 65535 →
      Period.fromStrBody (decimal y ++ 'Q' :: decimal q) =
        (if q ≤ 255 then
          (if 1 ≤ q ∧ q ≤ 4 then some (.quarterly y q) else none)
         else none) := by
    intro y q hy
    rw [Period.fromStrBody_findQ_some (findQ_append_q (decimal_no_Q y)),
      List.take_left, drop_append_cons,
      Period.fromStrWithQ_year_some (by rw [parseNat?_decimal, if_pos hy])]
    by_cases hq255 : q ≤ 255
    · rw [Period.parseQuarterPart_qtr
        (all_digits_getLast?_ne_I (decimal_all_digits q))
        (by rw [parseNat?_decimal, if_pos hq255]), if_pos hq255]
    · rw [Period.parseQuarterPart_qtr_fail
        (all_digits_getLast?_ne_I (decimal_all_digits q))
        (by rw [parseNat?_decimal, if_neg hq255]), if_neg hq255]
  have hbodyI : ∀ y q : Nat, y ≤ 65535 →
      Period.fromStrBody (decimal y ++ 'Q' :: (decimal q ++ ['I'])) =
        (if q ≤ 255 then
          (if 1 ≤ q ∧ q ≤ 4 then some (.instantaneous y q) else none)
         else none) := by
    intro y q hy
    rw [Period.fromStrBody_findQ_some (findQ_append_q (decimal_no_Q y)),
      List.take_left, drop_append_cons,
      Period.fromStrWithQ_year_some (by rw [parseNat?_decimal, if_pos hy])]
    by_cases hq255 : q ≤ 255
    · rw [Period.parseQuarterPart_inst (by rw [List.getLast?_concat])
        (by rw [List.dropLast_concat, parseNat?_decimal, if_pos hq255]),
        if_pos hq255]
    · rw [Period.parseQuarterPart_inst_fail (by rw [List.getLast?_concat])
        (by rw [List.dropLast_concat, parseNat?_decimal, if_neg hq255]),
        if_neg hq255]
  constructor
  · intro p hwf hq hi
    match p with
    | .annual y =>
      show Period.fromStrBody (decimal y) = some (.annual y)
      rw [Period.fromStrBody_findQ_none (findQ_eq_none (decimal_no_Q y)),
        parseNat?_decimal, if_pos (show y ≤ 65535 from hwf)]
      rfl
    | .quarterly y q =>
      have hq' := hq y q rfl
      show Period.fromStrBody (decimal y ++ 'Q' :: decimal q) = _
      rw [hbodyQ y q hwf.1, if_pos hwf.2, if_pos hq']
    | .instantaneous y q =>
      have hq' := hi y q rfl
      show Period.fromStrBody (decimal y ++ 'Q' :: (decimal q ++ ['I'])) = _
      rw [hbodyI y q hwf.1, if_pos hwf.2, if_pos hq']
  · intro y q hq
    by_cases hy : y ≤ 65535
    · constructor
      · show Period.fromStrBody (decimal y ++ 'Q' :: decimal q) = none
        rw [hbodyQ y q hy]
        split
        · rw [if_neg (by omega)]
        · rfl
      · show Period.fromStrBody (decimal y ++ 'Q' :: (decimal q ++ ['I'])) = none
        rw [hbodyI y q hy]
        split
        · rw [if_neg (by omega)]
        · rfl
    · have hyear : ∀ rest, Period.fromStrBody (decimal y ++ 'Q' :: rest) = none := by
        intro rest
        rw [Period.fromStrBody_findQ_some (findQ_append_q (decimal_no_Q y)),
          List.take_left,
          Period.fromStrWithQ_year_none (by rw [parseNat?_decimal, if_neg hy])]
      exact ⟨hyear (decimal q), hyear (decimal q ++ ['I'])⟩

/-- **C4 witness.** Concrete instances of the round-trip: an annual, a
quarterly and an instantaneous period survive formatting and parsing, and
the quarter value 5 fails to parse. -/
theorem C4_period_roundtrip_witness :
    Period.fromStr (Period.asStr (.annual 2020)) = some (.annual 2020) ∧
    Period.fromStr (Period.asStr (.quarterly 2020 2)) = some (.quarterly 2020 2) ∧
    Period.fromStr (Period.asStr (.instantaneous 2019 1)) = some (.instantaneous 2019 1) ∧
    Period.fromStr ('C' :: 'Y' :: (decimal 2020 ++ 'Q' :: decimal 5)) = none := by
  refine ⟨?_, ?_, ?_, ?_⟩
  · exact C4_period_roundtrip.1 (.annual 2020) (by norm_num [Period.wfRanges])
      (fun y q h => by cases h) (fun y q h => by cases h)
  · exact C4_period_roundtrip.1 (.quarterly 2020 2) (by norm_num [Period.wfRanges])
      (fun y q h => by cases h; omega) (fun y q h => by cases h)
  · exact C4_period_roundtrip.1 (.instantaneous 2019 1) (by norm_num [Period.wfRanges])
      (fun y q h => by cases h) (fun y q h => by cases h; omega)
  · exact (C4_period_roundtrip.2 2020 5 (by omega)).1

/-! ## `EdgarApiError` (src/error.rs) -/

/-- Model of the `EdgarApiError` enum from src/error.rs.  Payloads are kept
as the data the variants carry (messages as `String`, the HTTP status as
`Nat` for `u16`, `retry_after` as `Option Nat` for `Option<u64>`). -/
inductive EdgarApiError where
  | networkError (msg : String)
  | parseError (msg : String)
  | requestError (msg : String)
  | apiError (status : Nat) (message : String)
  | rateLimitExceeded (retry_after : Option Nat)
  | invalidCik (msg : String)
  | ioError (msg : String)
  | zipError (msg : String)
  | httpError (msg : String)
  deriving DecidableEq, Repr

/-- Model of `EdgarApiError::is_transient` from src/error.rs. -/
def EdgarApiError.is_transient : EdgarApiError → Bool
  | .networkError _ => true
  | .apiError status _ =>
      (status == 429) || (status == 503) || decide (500 ≤ status)
  | .rateLimitExceeded _ => true
  | _ => false

/-- The claim's description of which errors are transient, stated from the
spec's words (for comparison with `is_transient` as implemented). -/
def transientSpec : EdgarApiError → Prop
  | .networkError _ => True
  | .rateLimitExceeded _ => True
  | .apiError status _ => status = 429 ∨ status = 503 ∨ 500 ≤ status
  | _ => False

/-- **C6.** `is_transient` returns true exactly for `NetworkError`,
`RateLimitExceeded`, and `ApiError` whose status is 429, 503 or ≥ 500;
`ApiError` 500 is transient, 404 is not, and `ParseError`, `RequestError`,
`InvalidCik`, `IoError` and `ZipError` are never transient. -/
theorem C6_is_transient :
    (∀ e : EdgarApiError, e.is_transient = true ↔ transientSpec e) ∧
    (∀ m, (EdgarApiError.apiError 500 m).is_transient = true) ∧
    (∀ m, (EdgarApiError.apiError 404 m).is_transient = false) ∧
    (∀ m, (EdgarApiError.parseError m).is_transient = false) ∧
    (∀ m, (EdgarApiError.requestError m).is_transient = false) ∧
    (∀ m, (EdgarApiError.invalidCik m).is_transient = false) ∧
    (∀ m, (EdgarApiError.ioError m).is_transient = false) ∧
    (∀ m, (EdgarApiError.zipError m).is_transient = false) := by
  refine ⟨?_, fun m => rfl, fun m => rfl, fun m => rfl, fun m => rfl,
    fun m => rfl, fun m => rfl, fun m => rfl⟩
  intro e
  cases e <;> simp [EdgarApiError.is_transient, transientSpec, or_assoc]

/-! ## Response classification (src/http/native.rs and src/client.rs)

The transport (`ReqwestClient::get`) intercepts status 429 and turns it
into `RateLimitExceeded`; `EdgarClient::get` repeats the 429 check,
rejects non-2xx statuses as `ApiError`, and decodes the body of a
successful response, turning decode failures into `ParseError`.  The JSON
decoder (serde) is an external collaborator and is passed in as a
function `decode` from body bytes to `Except String T`. -/

/-- Model of `HttpResponse` from src/http.rs. -/
structure HttpResponse where
  status : Nat
  headers : List (String × String)
  body : List Nat
  deriving Repr

/-- Model of `HttpResponse::is_success`: `status >= 200 && status < 300`. -/
def HttpResponse.is_success (r : HttpResponse) : Bool :=
  decide (200 ≤ r.status) && decide (r.status < 300)

/-- Model of `ApiResponse` from src/types.rs. -/
structure ApiResponse (T : Type) where
  status : Nat
  data : T

/-- Model of `HashMap::get` over the collected response headers. -/
def headerGet (headers : List (String × String)) (k : String) : Option String :=
  (headers.find? (fun p => p.1 == k)).map Prod.snd

/-- Model of `str::parse::<u64>().ok()`. -/
def parseU64 (s : String) : Option Nat :=
  parseNat? (2 ^ 64 - 1) s.toList

/-- `headers.get("retry-after").and_then(|s| s.parse::<u64>().ok())`, the
retry-after extraction shared by src/http/native.rs and src/client.rs. -/
def retryAfterOf (headers : List (String × String)) : Option Nat :=
  (headerGet headers "retry-after").bind parseU64

/-- Model of the response-classification part of `ReqwestClient::get`
(src/http/native.rs lines 83–93): a 429 response becomes
`RateLimitExceeded` before the body is handed to the caller. -/
def reqwestClassify (raw : HttpResponse) : Except EdgarApiError HttpResponse :=
  if raw.status = 429 then
    .error (.rateLimitExceeded (retryAfterOf raw.headers))
  else .ok raw

/-- Model of `EdgarClient::get` (src/client.rs lines 63–102) applied to
the transport's response: repeat the 429 check, reject non-success
statuses, decode the body. -/
def clientGet {T : Type} (decode : List Nat → Except String T) (url : String)
    (resp : HttpResponse) : Except EdgarApiError (ApiResponse T) :=
  if resp.status = 429 then
    .error (.rateLimitExceeded (retryAfterOf resp.headers))
  else if resp.is_success = false then
    .error (.apiError resp.status
      ("Request to " ++ url ++ " failed with status " ++ toString resp.status))
  else
    match decode resp.body with
    | .error e => .error (.parseError e)
    | .ok data => .ok ⟨resp.status, data⟩

/-- The composite request path: the transport's classification followed by
the client's. -/
def requestPath {T : Type} (decode : List Nat → Except String T) (url : String)
    (raw : HttpResponse) : Except EdgarApiError (ApiResponse T) :=
  match reqwestClassify raw with
  | .error e => .error e
  | .ok resp => clientGet decode url resp

theorem reqwestClassify_429 {raw : HttpResponse} (h : raw.status = 429) :
    reqwestClassify raw = .error (.rateLimitExceeded (retryAfterOf raw.headers)) := by
  unfold reqwestClassify
  rw [if_pos h]

theorem reqwestClassify_not429 {raw : HttpResponse} (h : raw.status ≠ 429) :
    reqwestClassify raw = .ok raw := by
  unfold reqwestClassify
  rw [if_neg h]

theorem requestPath_error {T : Type} (decode : List Nat → Except String T)
    (url : String) {raw : HttpResponse} {e : EdgarApiError}
    (h : reqwestClassify raw = .error e) :
    requestPath decode url raw = .error e := by
  unfold requestPath
  rw [h]

theorem requestPath_ok {T : Type} (decode : List Nat → Except String T)
    (url : String) {raw resp : HttpResponse}
    (h : reqwestClassify raw = .ok resp) :
    requestPath decode url raw = clientGet decode url resp := by
  unfold requestPath
  rw [h]

/-- **C5.** Classification of every transport response on the client's
request path: 429 yields `RateLimitExceeded` whose `retry_after` is the
integer parse of the `retry-after` header when present and parseable and
`None` otherwise; any other non-2xx status yields `ApiError` with that
status and a descriptive message; a 2xx response whose body fails to
decode yields `ParseError`; a 2xx response with a decodable body yields
the typed value. -/
theorem C5_response_classification {T : Type}
    (decode : List Nat → Except String T) (url : String) (raw : HttpResponse) :
    (raw.status = 429 →
      requestPath decode url raw =
        .error (.rateLimitExceeded (retryAfterOf raw.headers))) ∧
    (∀ s v, headerGet raw.headers "retry-after" = some s → parseU64 s = some v →
      retryAfterOf raw.headers = some v) ∧
    (headerGet raw.headers "retry-after" = none → retryAfterOf raw.headers = none) ∧
    (∀ s, headerGet raw.headers "retry-after" = some s → parseU64 s = none →
      retryAfterOf raw.headers = none) ∧
    (raw.status ≠ 429 → ¬(200 ≤ raw.status ∧ raw.status < 300) →
      requestPath decode url raw = .error (.apiError raw.status
        ("Request to " ++ url ++ " failed with status " ++ toString raw.status))) ∧
    (200 ≤ raw.status → raw.status < 300 →
      (∀ e, decode raw.body = .error e →
        requestPath decode url raw = .error (.parseError e)) ∧
      (∀ d, decode raw.body = .ok d →
        requestPath decode url raw = .ok ⟨raw.status, d⟩)) := by
  refine ⟨?_, ?_, ?_, ?_, ?_, ?_⟩
  · intro h429
    exact requestPath_error decode url (reqwestClassify_429 h429)
  · intro s v hs hv
    unfold retryAfterOf
    rw [hs]
    exact hv
  · intro hnone
    unfold retryAfterOf
    rw [hnone]
    rfl
  · intro s hs hv
    unfold retryAfterOf
    rw [hs]
    exact hv
  · intro h429 hfail
    rw [requestPath_ok decode url (reqwestClassify_not429 h429)]
    unfold clientGet
    rw [if_neg h429, if_pos (by
      simp [HttpResponse.is_success]
      omega)]
  · intro h200 h300
    have h429 : raw.status ≠ 429 := by omega
    have hsucc : ¬ raw.is_success = false := by
      simp [HttpResponse.is_success]
      omega
    constructor
    · intro e he
      rw [requestPath_ok decode url (reqwestClassify_not429 h429)]
      unfold clientGet
      rw [if_neg h429, if_neg hsucc, he]
    · intro d hd
      rw [requestPath_ok decode url (reqwestClassify_not429 h429)]
      unfold clientGet
      rw [if_neg h429, if_neg hsucc, hd]

/-- **C5 witness.** Concrete responses exercising the four branches:
a 429 with a parseable `retry-after: 30`, a 500, a 200 with an
undecodable body, and a 200 with a decodable body. -/
theorem C5_response_classification_witness :
    requestPath (fun b => if b = [1] then Except.ok (7 : Nat) else .error "bad json")
        "u" ⟨429, [("retry-after", "30")], []⟩ =
      .error (.rateLimitExceeded (some 30)) ∧
    requestPath (fun b => if b = [1] then Except.ok (7 : Nat) else .error "bad json")
        "u" ⟨500, [], []⟩ =
      .error (.apiError 500 "Request to u failed with status 500") ∧
    requestPath (fun b => if b = [1] then Except.ok (7 : Nat) else .error "bad json")
        "u" ⟨200, [], [2]⟩ =
      .error (.parseError "bad json") ∧
    requestPath (fun b => if b = [1] then Except.ok (7 : Nat) else .error "bad json")
        "u" ⟨200, [], [1]⟩ =
      .ok ⟨200, 7⟩ := by
  refine ⟨?_, ?_, ?_, ?_⟩
  · exact (C5_response_classification _ "u" ⟨429, [("retry-after", "30")], []⟩).1 rfl
  · exact ((C5_response_classification _ "u" ⟨500, [], []⟩).2.2.2.2.1
      (by decide) (by decide))
  · exact (((C5_response_classification _ "u" ⟨200, [], [2]⟩).2.2.2.2.2
      (by decide) (by decide)).1 "bad json" (by rfl))
  · exact (((C5_response_classification _ "u" ⟨200, [], [1]⟩).2.2.2.2.2
      (by decide) (by decide)).2 7 (by rfl))

/-! ## `Config::build_url` (src/config.rs) -/

/-- The eight characters of the canonical scheme `"https://"`. -/
def httpsScheme : List Char := ['h', 't', 't', 'p', 's', ':', '/', '/']

/-- Model of `Config` from src/config.rs. -/
structure Config where
  base_url : List Char
  user_agent : List Char

/-- Model of `Config::build_url`: when `url` starts with `"https://"`,
replace those 8 characters by `base_url`; otherwise pass `url` through. -/
def Config.build_url (cfg : Config) (url : List Char) : List Char :=
  if url.take 8 = httpsScheme then cfg.base_url ++ url.drop 8 else url

/-- **C9.** `build_url` equals the configured prefix concatenated with
the url minus its first 8 characters when the url starts with
`"https://"`, equals the url unchanged otherwise, and is the identity on
https urls under the default prefix `"https://"`. -/
theorem C9_build_url (cfg : Config) (url : List Char) :
    (url.take 8 = httpsScheme →
      cfg.build_url url = cfg.base_url ++ url.drop 8) ∧
    (url.take 8 ≠ httpsScheme → cfg.build_url url = url) ∧
    (cfg.base_url = httpsScheme → url.take 8 = httpsScheme →
      cfg.build_url url = url) := by
  refine ⟨?_, ?_, ?_⟩
  · intro h
    unfold Config.build_url
    rw [if_pos h]
  · intro h
    unfold Config.build_url
    rw [if_neg h]
  · intro hbase h
    unfold Config.build_url
    rw [if_pos h, hbase, ← h, List.take_append_drop]

/-- **C9 witness.** The proxy example from the source's tests, and the
default-prefix identity. -/
theorem C9_build_url_witness :
    Config.build_url ⟨"https://proxy.example.com/".toList, "ua".toList⟩
        "https://www.sec.gov/files/data.json".toList =
      "https://proxy.example.com/www.sec.gov/files/data.json".toList ∧
    Config.build_url ⟨"https://".toList, "ua".toList⟩
        "https://www.sec.gov/files/data.json".toList =
      "https://www.sec.gov/files/data.json".toList := by
  constructor
  · exact ((C9_build_url ⟨"https://proxy.example.com/".toList, "ua".toList⟩
      "https://www.sec.gov/files/data.json".toList).1 (by rfl)).trans (by rfl)
  · exact (C9_build_url ⟨"https://".toList, "ua".toList⟩
      "https://www.sec.gov/files/data.json".toList).2.2 (by rfl) (by rfl)

/-! ## `Unit` (src/types.rs)

The unit of measure, named `EUnit` here to avoid the clash with Lean's
built-in `Unit`. -/

/-- The separator `"-per-"` of compound units. -/
def perSep : List Char := ['-', 'p', 'e', 'r', '-']

/-- Model of `str::find("-per-")`: index of the first occurrence of the
pattern, `none` when the pattern does not occur. -/
def findSub (pat : List Char) : List Char → Option Nat
  | [] => if pat.isEmpty then some 0 else none
  | c :: t =>
    if (c :: t).take pat.length = pat then some 0
    else (findSub pat t).map (· + 1)

/-- Model of the `Unit` enum from src/types.rs. -/
inductive EUnit where
  | simple (u : List Char)
  | compound (num den : List Char)
  deriving DecidableEq, Repr

/-- Model of the `Display` implementation / `Unit::as_str`. -/
def EUnit.asStr : EUnit → List Char
  | .simple u => u
  | .compound n d => n ++ perSep ++ d

/-- Model of `Unit::from_str`: split at the first `"-per-"` into a
compound unit, otherwise a simple unit.  Total: no error case. -/
def EUnit.fromStr (s : List Char) : EUnit :=
  match findSub perSep s with
  | some idx => .compound (s.take idx) (s.drop (idx + 5))
  | none => .simple s

theorem findSub_some {pat : List Char} : ∀ {s : List Char} {i : Nat},
    findSub pat s = some i →
    s.take i ++ pat ++ s.drop (i + pat.length) = s := by
  intro s
  induction s with
  | nil =>
    intro i h
    unfold findSub at h
    split at h
    · rename_i hpat
      injection h with h
      subst h
      simp_all [List.isEmpty_iff]
    · exact absurd h (by simp)
  | cons c t ih =>
    intro i h
    unfold findSub at h
    split at h
    · rename_i hpat
      injection h with h
      subst h
      simp only [List.take_zero, List.nil_append, Nat.zero_add]
      nth_rewrite 1 [← hpat]
      exact List.take_append_drop _ _
    · rename_i hpat
      rw [Option.map_eq_some'] at h
      obtain ⟨j, hj, hji⟩ := h
      subst hji
      have := ih hj
      rw [List.take_succ_cons,
        show j + 1 + pat.length = (j + pat.length) + 1 from by omega,
        List.drop_succ_cons, List.cons_append, List.cons_append, this]

/-- **C10.** `Unit::from_str` is total and a right inverse of formatting:
`fromStr s |>.asStr = s` for every string; a string containing `"-per-"`
is split at its first occurrence into a compound unit and any other
string becomes a simple unit. -/
theorem C10_unit_roundtrip (s : List Char) :
    (EUnit.fromStr s).asStr = s ∧
    (∀ i, findSub perSep s = some i →
      EUnit.fromStr s = .compound (s.take i) (s.drop (i + 5))) ∧
    (findSub perSep s = none → EUnit.fromStr s = .simple s) := by
  refine ⟨?_, ?_, ?_⟩
  · unfold EUnit.fromStr
    cases h : findSub perSep s with
    | none => rfl
    | some i =>
      show (s.take i) ++ perSep ++ (s.drop (i + 5)) = s
      exact findSub_some h
  · intro i h
    unfold EUnit.fromStr
    rw [h]
  · intro h
    unfold EUnit.fromStr
    rw [h]

/-- **C10 witness.** Concrete instances: `"USD-per-shares"` splits into a
compound unit and round-trips; `"USD"` stays a simple unit. -/
theorem C10_unit_roundtrip_witness :
    (EUnit.fromStr "USD-per-shares".toList).asStr = "USD-per-shares".toList ∧
    EUnit.fromStr "USD-per-shares".toList =
      .compound "USD".toList "shares".toList ∧
    EUnit.fromStr "USD".toList = .simple "USD".toList := by
  refine ⟨(C10_unit_roundtrip _).1, ?_, ?_⟩
  · exact ((C10_unit_roundtrip "USD-per-shares".toList).2.1 3 (by rfl)).trans
      (by rfl)
  · exact (C10_unit_roundtrip "USD".toList).2.2 (by rfl)

/-! ## `Taxonomy` (src/types.rs) -/

/-- Model of the `Taxonomy` enum from src/types.rs. -/
inductive Taxonomy where
  | usGaap
  | ifrsFull
  | dei
  | srt
  deriving DecidableEq, Repr

/-- Model of `Taxonomy::as_str`. -/
def Taxonomy.asStr : Taxonomy → List Char
  | .usGaap => "us-gaap".toList
  | .ifrsFull => "ifrs-full".toList
  | .dei => "dei".toList
  | .srt => "srt".toList

/-! ## Effect traces of the endpoint methods (src/client.rs)

Each endpoint method of `EdgarClient` (the `native` implementation,
src/client.rs lines 155–285) is modelled by the sequence of
rate-governor / transport effects it performs, in program order.  The
bodies are translated from the source: every method builds its URL
(after `format_cik` where applicable) and then calls `self.get(url)`,
which invokes `self.http_client.get(url, headers)` directly; the bulk
download methods call `self.http_client.get_bytes(url, headers)`.  The
repository's `RateLimiter` (src/rate_limit.rs) is never constructed or
invoked on any of these paths — lib.rs does not even declare
`mod rate_limit` — so no `acquireToken` event ever occurs. -/

inductive ClientEvent where
  | acquireToken
  | httpGet (url : List Char)
  | httpGetBytes (url : List Char)
  deriving DecidableEq, Repr

/-- Transport events: the calls that transmit an outbound request. -/
def ClientEvent.isTransport : ClientEvent → Bool
  | .acquireToken => false
  | .httpGet _ => true
  | .httpGetBytes _ => true

/-- Effects of `EdgarClient::get` (src/client.rs lines 63–102): a single
direct call to the transport's `get`. -/
def clientGetEvents (url : List Char) : List ClientEvent :=
  [.httpGet url]

/-- Effects of `get_submissions_history`: `format_cik` (pure, an error
aborts before any request), then `self.get`. -/
def get_submissions_history_events (cik : List Char) : List ClientEvent :=
  match format_cik cik with
  | .error _ => []
  | .ok f =>
    clientGetEvents ("https://data.sec.gov/submissions/CIK".toList ++ f ++ ".json".toList)

/-- Effects of `get_submissions_file`. -/
def get_submissions_file_events (filename : List Char) : List ClientEvent :=
  clientGetEvents ("https://data.sec.gov/submissions/".toList ++ filename)

/-- Effects of `get_company_concept`. -/
def get_company_concept_events (cik : List Char) (t : Taxonomy) (tag : List Char) :
    List ClientEvent :=
  match format_cik cik with
  | .error _ => []
  | .ok f =>
    clientGetEvents ("https://data.sec.gov/api/xbrl/companyconcept/CIK".toList ++ f ++
      "/".toList ++ t.asStr ++ "/".toList ++ tag ++ ".json".toList)

/-- Effects of `get_company_facts`. -/
def get_company_facts_events (cik : List Char) : List ClientEvent :=
  match format_cik cik with
  | .error _ => []
  | .ok f =>
    clientGetEvents ("https://data.sec.gov/api/xbrl/companyfacts/CIK".toList ++ f ++
      ".json".toList)

/-- Effects of `get_xbrl_frames`. -/
def get_xbrl_frames_events (t : Taxonomy) (tag : List Char) (u : EUnit) (p : Period) :
    List ClientEvent :=
  clientGetEvents ("https://data.sec.gov/api/xbrl/frames/".toList ++ t.asStr ++
    "/".toList ++ tag ++ "/".toList ++ u.asStr ++ "/".toList ++ p.asStr ++ ".json".toList)

/-- Effects of `get_company_tickers`. -/
def get_company_tickers_events : List ClientEvent :=
  clientGetEvents "https://www.sec.gov/files/company_tickers_exchange.json".toList

/-- Effects of `get_company_tickers_mf`. -/
def get_company_tickers_mf_events : List ClientEvent :=
  clientGetEvents "https://www.sec.gov/files/company_tickers_mf.json".toList

/-- Transport effects of `download_bulk_submissions` (src/client.rs lines
232–255): one direct `get_bytes` call; the subsequent temp-file write and
extraction perform no transport effects. -/
def download_bulk_submissions_events : List ClientEvent :=
  [.httpGetBytes "https://www.sec.gov/Archives/edgar/daily-index/bulkdata/submissions.zip".toList]

/-- Transport effects of `download_bulk_company_facts`. -/
def download_bulk_company_facts_events : List ClientEvent :=
  [.httpGetBytes "https://www.sec.gov/Archives/edgar/daily-index/bulkdata/companyfacts.zip".toList]

/-- **C1.** The claim says every endpoint invocation acquires a
rate-governor token before the transport call.  In the code the event
trace of every endpoint method consists of transport events only — no
`acquireToken` event ever precedes (or occurs at all); at the concrete
input `"320193"` the submissions-history trace is exactly one
un-preceded transport call.  This refutes the claim on the code: the
`RateLimiter` of src/rate_limit.rs is dead code. -/
theorem C1_no_token_acquisition :
    (∀ cik, (get_submissions_history_events cik).all ClientEvent.isTransport = true) ∧
    (∀ filename, (get_submissions_file_events filename).all ClientEvent.isTransport = true) ∧
    (∀ cik t tag, (get_company_concept_events cik t tag).all ClientEvent.isTransport = true) ∧
    (∀ cik, (get_company_facts_events cik).all ClientEvent.isTransport = true) ∧
    (∀ t tag u p, (get_xbrl_frames_events t tag u p).all ClientEvent.isTransport = true) ∧
    get_company_tickers_events.all ClientEvent.isTransport = true ∧
    get_company_tickers_mf_events.all ClientEvent.isTransport = true ∧
    download_bulk_submissions_events.all ClientEvent.isTransport = true ∧
    download_bulk_company_facts_events.all ClientEvent.isTransport = true ∧
    get_submissions_history_events "320193".toList =
      [.httpGet "https://data.sec.gov/submissions/CIK0000320193.json".toList] := by
  refine ⟨?_, fun _ => rfl, ?_, ?_, fun _ _ _ _ => rfl, rfl, rfl, rfl, rfl, ?_⟩
  · intro cik
    unfold get_submissions_history_events
    cases format_cik cik <;> rfl
  · intro cik t tag
    unfold get_company_concept_events
    cases format_cik cik <;> rfl
  · intro cik
    unfold get_company_facts_events
    cases format_cik cik <;> rfl
  · have h : format_cik "320193".toList = .ok "0000320193".toList := by
      have h := (C3_format_cik "320193".toList).2.2 (by decide) (by decide)
      rw [h.1]
      rfl
    unfold get_submissions_history_events
    rw [h]
    rfl

/-! ## The rate governor as a state machine (src/rate_limit.rs)

The claim models the governor's state as the available token count,
initialised to `capacity` (`Semaphore::new(rate)`), with a step
`acquire` that decrements a positive count (`semaphore.acquire()`,
waiting otherwise, so a waiting acquirer performs no step) and a step
`replenish` that adds one token — faithful to the replenisher loop,
whose `semaphore.add_permits(1)` adds a permit unconditionally: tokio's
`add_permits` imposes no cap at `capacity`. -/

/-- One step of the governor state machine. -/
inductive RLStep : Nat → Nat → Prop where
  | acquire (n : Nat) : 0 < n → RLStep n (n - 1)
  | replenish (n : Nat) : RLStep n (n + 1)

/-- States reachable from the initial state `capacity`. -/
def RLReachable (capacity n : Nat) : Prop :=
  Relation.ReflTransGen RLStep capacity n

/-- Reachability indexed by the number of `replenish` steps taken. -/
inductive RLReachN (capacity : Nat) : Nat → Nat → Prop where
  | refl : RLReachN capacity capacity 0
  | acquire (n k : Nat) : RLReachN capacity n k → 0 < n → RLReachN capacity (n - 1) k
  | replenish (n k : Nat) : RLReachN capacity n k → RLReachN capacity (n + 1) (k + 1)

/-- **C2 counterexample.** The claim's invariant `available ≤ capacity`
fails: with capacity 1, one unconditional `replenish` step reaches the
state 2, which exceeds the capacity. -/
theorem C2_capacity_bound_counterexample : RLReachable 1 2 ∧ 1 < 2 :=
  ⟨Relation.ReflTransGen.single (RLStep.replenish 1), by omega⟩

/-- **C2 (amended).** Because `replenish` adds a token unconditionally,
the available count is not bounded by `capacity`; the invariant that
holds of every reachable state is `available ≤ capacity + r` where `r`
is the number of replenish steps taken. -/
theorem C2_available_bound (capacity n k : Nat) (h : RLReachN capacity n k) :
    n ≤ capacity + k := by
  induction h with
  | refl => omega
  | acquire n k _ _ ih => omega
  | replenish n k _ ih => omega

/-- **C2 witness.** The amended bound applied to the concrete run that
replenishes once from capacity 1: the state 2 satisfies `2 ≤ 1 + 1`. -/
theorem C2_available_bound_witness : RLReachN 1 2 1 ∧ 2 ≤ 1 + 1 :=
  ⟨RLReachN.replenish 1 0 RLReachN.refl,
    C2_available_bound 1 2 1 (RLReachN.replenish 1 0 RLReachN.refl)⟩

/-! ## File system model and archive extraction (src/utils/download.rs)

Paths are modelled as lists of components (the segments between `/`);
the file system as an association list from paths to byte contents, where
a write shadows earlier entries (reads take the first match) and deleting
a file removes every entry at that path.  Directories are implicit
(`create_dir_all` has no observable effect on the files map). -/

/-- A file-system path, as a list of name components. -/
abbrev PathC := List (List Char)

/-- The file system: an association list from paths to file contents. -/
abbrev FS := List (PathC × List Nat)

/-- `File::create` + write: the new entry shadows any previous one. -/
def fsWrite (fs : FS) (p : PathC) (data : List Nat) : FS :=
  (p, data) :: fs

/-- `File::open` + read: first matching entry. -/
def fsRead (fs : FS) (p : PathC) : Option (List Nat) :=
  (fs.find? (fun e => decide (e.1 = p))).map Prod.snd

/-- `remove_file`: delete every entry at the path. -/
def fsErase (fs : FS) (p : PathC) : FS :=
  fs.filter (fun e => decide (e.1 ≠ p))

/-- One entry of a zip archive: its name (as path components, `isDir`
when the raw name ends with `'/'`) and its uncompressed contents.  The
zip container format itself is an external collaborator; an archive is
modelled as its entry list. -/
structure ZEntry where
  nameComps : List (List Char)
  isDir : Bool
  data : List Nat
  deriving DecidableEq, Repr

/-- Depth check of the zip crate's `ZipFile::enclosed_name`: walk the
components keeping the current depth; an absolute component (modelled as
an empty component, i.e. `RootDir`/`Prefix`) is rejected, `"."` is
skipped, `".."` pops one level and is rejected at depth 0, every normal
component pushes one level. -/
def encOk : Nat → List (List Char) → Bool
  | _, [] => true
  | d, c :: rest =>
    if c = [] then false
    else if c = ['.'] then encOk d rest
    else if c = ['.', '.'] then
      match d with
      | 0 => false
      | Nat.succ d' => encOk d' rest
    else encOk (d + 1) rest

/-- Model of `ZipFile::enclosed_name`: the entry's path when it is safe,
`none` when it would escape (the source maps `none` to the error
`"Invalid file path in ZIP"`). -/
def enclosedName (comps : List (List Char)) : Option (List (List Char)) :=
  if encOk 0 comps then some comps else none

/-- OS-level resolution of `"."` and `".."` components performed by the
kernel when the file is created at `output_dir.join(p)`.  Only ever
applied to names accepted by `enclosedName`, whose depth check
guarantees the stack is never popped past the name's own components. -/
def resolveAux (stack : List (List Char)) : List (List Char) → List (List Char)
  | [] => stack.reverse
  | c :: rest =>
    if c = [] then resolveAux stack rest
    else if c = ['.'] then resolveAux stack rest
    else if c = ['.', '.'] then resolveAux stack.tail rest
    else resolveAux (c :: stack) rest

/-- Resolution of a relative name against the destination directory. -/
def resolveComps (comps : List (List Char)) : List (List Char) :=
  resolveAux [] comps

/-- The extraction loop of `extract_zip` (src/utils/download.rs lines
59–88): each entry's name must pass `enclosed_name` (else the loop aborts
with `"Invalid file path in ZIP"`); directory entries only create
directories; file entries are written at the destination joined with the
entry's name. -/
def extractEntries (dest : PathC) : List ZEntry → FS → FS × Except String Unit
  | [], fs => (fs, .ok ())
  | e :: rest, fs =>
    match enclosedName e.nameComps with
    | none => (fs, .error "Invalid file path in ZIP")
    | some p =>
      if e.isDir then extractEntries dest rest fs
      else extractEntries dest rest (fsWrite fs (dest ++ resolveComps p) e.data)

/-- Model of `extract_zip` (src/utils/download.rs lines 52–91):
`File::open` the zip path (error when the file does not exist), decode
the archive (`ZipArchive::new`, an external collaborator passed in as
`zipDecode`), then run the extraction loop. -/
def extract_zip (zipDecode : List Nat → Option (List ZEntry)) (fs : FS)
    (zipPath dest : PathC) : FS × Except String Unit :=
  match fsRead fs zipPath with
  | none => (fs, .error "Failed to open ZIP file")
  | some bytes =>
    match zipDecode bytes with
    | none => (fs, .error "Failed to read ZIP archive")
    | some arch => extractEntries dest arch fs

/-- Model of `write_temp_file` (src/utils/download.rs lines 25–39).
`tempfile::NamedTempFile::new()` creates a file at a temporary path and
returns a guard that removes the file when dropped; the function copies
the path out of the guard, writes `bytes` at that path via
`File::create`, and returns the path.  The guard is a local, so when the
function returns it is dropped and the file at the returned path is
removed — hence the erase after the write. -/
def write_temp_file (fs : FS) (bytes : List Nat) (tempPath : PathC) :
    FS × PathC :=
  (fsErase (fsWrite fs tempPath bytes) tempPath, tempPath)

/-- Model of the file-system part of `download_bulk_submissions`
(src/client.rs lines 232–255) after a successful `get_bytes`: write the
body to a temporary file, then extract that file into the destination. -/
def download_bulk_submissions_fs (zipDecode : List Nat → Option (List ZEntry))
    (fs : FS) (body : List Nat) (tempPath dest : PathC) :
    FS × Except String Unit :=
  let r := write_temp_file fs body tempPath
  extract_zip zipDecode r.1 r.2 dest

theorem fsRead_fsErase (fs : FS) (p : PathC) : fsRead (fsErase fs p) p = none := by
  induction fs with
  | nil => rfl
  | cons e t ih =>
    by_cases h : e.1 = p
    · unfold fsErase at ih ⊢
      rw [List.filter_cons, if_neg (by simp [h])]
      exact ih
    · unfold fsErase at ih ⊢
      rw [List.filter_cons, if_pos (by simp [h])]
      unfold fsRead at ih ⊢
      rw [List.find?_cons_of_neg _ (by simp [h])]
      exact ih

theorem fsErase_fsWrite_self (fs : FS) (p : PathC) (d : List Nat) :
    fsErase (fsWrite fs p d) p = fsErase fs p := by
  unfold fsErase fsWrite
  rw [List.filter_cons, if_neg (by simp)]

theorem extract_zip_open_fail {zipDecode : List Nat → Option (List ZEntry)}
    {fs : FS} {zipPath : PathC} (dest : PathC) (h : fsRead fs zipPath = none) :
    extract_zip zipDecode fs zipPath dest = (fs, .error "Failed to open ZIP file") := by
  unfold extract_zip
  rw [h]

/-- **C7.** The claim says a successful bulk download of a well-formed
archive extracts it into the destination and the temporary artifact is
gone afterwards.  In the code, `write_temp_file`'s `NamedTempFile` guard
is dropped when the function returns, deleting the file at the returned
path, so `extract_zip` always fails to open it: for every archive body
and every prior file-system state the operation returns
`"Failed to open ZIP file"`, extracts nothing (the final state is the
initial one minus the temporary path), and indeed no file remains at the
temporary path.  This contradicts the module's own
`test_write_temp_file`, which reads the file back after the call. -/
theorem C7_bulk_download_always_fails
    (zipDecode : List Nat → Option (List ZEntry)) (fs : FS) (body : List Nat)
    (tempPath dest : PathC) :
    (download_bulk_submissions_fs zipDecode fs body tempPath dest).2 =
      .error "Failed to open ZIP file" ∧
    (download_bulk_submissions_fs zipDecode fs body tempPath dest).1 =
      fsErase fs tempPath ∧
    fsRead (download_bulk_submissions_fs zipDecode fs body tempPath dest).1
      tempPath = none := by
  unfold download_bulk_submissions_fs write_temp_file
  rw [extract_zip_open_fail dest (fsRead_fsErase _ _)]
  refine ⟨rfl, fsErase_fsWrite_self fs tempPath body, ?_⟩
  rw [fsErase_fsWrite_self fs tempPath body]
  exact fsRead_fsErase fs tempPath

theorem extractEntries_nil (dest : PathC) (fs : FS) :
    extractEntries dest [] fs = (fs, .ok ()) := rfl

theorem extractEntries_bad (dest : PathC) {e : ZEntry} (rest : List ZEntry)
    (fs : FS) (h : enclosedName e.nameComps = none) :
    extractEntries dest (e :: rest) fs = (fs, .error "Invalid file path in ZIP") := by
  conv_lhs => rw [extractEntries]
  rw [h]

theorem extractEntries_dir (dest : PathC) {e : ZEntry} (rest : List ZEntry)
    (fs : FS) {p : List (List Char)} (h : enclosedName e.nameComps = some p)
    (hd : e.isDir = true) :
    extractEntries dest (e :: rest) fs = extractEntries dest rest fs := by
  conv_lhs => rw [extractEntries]
  rw [h]
  simp [hd]

theorem extractEntries_file (dest : PathC) {e : ZEntry} (rest : List ZEntry)
    (fs : FS) {p : List (List Char)} (h : enclosedName e.nameComps = some p)
    (hd : e.isDir = false) :
    extractEntries dest (e :: rest) fs =
      extractEntries dest rest (fsWrite fs (dest ++ resolveComps p) e.data) := by
  conv_lhs => rw [extractEntries]
  rw [h]
  simp [hd]

/-- **C8.** The path-traversal guard: extraction succeeds exactly when
every entry's name passes the `enclosed_name` depth check (so an archive
containing an entry that would resolve outside the destination — a
leading `".."`, more `".."` components than depth, or an absolute name —
makes `extract_zip` return an error), and every file present after the
extraction loop either pre-existed or lies under the destination
directory. -/
theorem C8_path_traversal_guard (dest : PathC) (arch : List ZEntry) (fs : FS) :
    ((extractEntries dest arch fs).2 = .ok () ↔
      ∀ e ∈ arch, encOk 0 e.nameComps = true) ∧
    (∀ q data, (q, data) ∈ (extractEntries dest arch fs).1 →
      (q, data) ∈ fs ∨ q.take dest.length = dest) := by
  induction arch generalizing fs with
  | nil =>
    refine ⟨by simp [extractEntries_nil], ?_⟩
    intro q data h
    exact Or.inl h
  | cons e rest ih =>
    by_cases hok : encOk 0 e.nameComps = true
    · have henc : enclosedName e.nameComps = some e.nameComps := by
        unfold enclosedName
        rw [if_pos hok]
      cases hd : e.isDir with
      | true =>
        rw [extractEntries_dir dest rest fs henc hd]
        refine ⟨?_, (ih fs).2⟩
        rw [(ih fs).1]
        simp [hok]
      | false =>
        rw [extractEntries_file dest rest fs henc hd]
        constructor
        · rw [(ih _).1]
          simp [hok]
        · intro q data h
          rcases (ih _).2 q data h with hmem | hpre
          · unfold fsWrite at hmem
            rcases List.mem_cons.mp hmem with heq | hold
            · right
              have hq : q = dest ++ resolveComps e.nameComps := by
                have := congrArg Prod.fst heq
                simpa using this
              rw [hq]
              exact List.take_left' rfl
            · exact Or.inl hold
          · exact Or.inr hpre
    · have henc : enclosedName e.nameComps = none := by
        unfold enclosedName
        rw [if_neg hok]
      rw [extractEntries_bad dest rest fs henc]
      constructor
      · simp only [List.all_cons]
        constructor
        · intro h
          exact absurd h (by simp)
        · intro h
          exact absurd (h e (by simp)) hok
      · intro q data h
        exact Or.inl h

/-- **C8 witness.** The entry `../evil` is rejected with the zip-path
error and nothing is written; a benign entry `a/b` ends up under the
destination directory. -/
theorem C8_path_traversal_guard_witness :
    (extractEntries [['d']] [⟨[['.', '.'], ['e', 'v', 'i', 'l']], false, [1]⟩] []).2 =
      .error "Invalid file path in ZIP" ∧
    (([['d'], ['a'], ['b']], [7]) ∈ ([] : FS) ∨
      [['d'], ['a'], ['b']].take ([['d']] : PathC).length = [['d']]) := by
  constructor
  · rfl
  · exact (C8_path_traversal_guard [['d']] [⟨[['a'], ['b']], false, [7]⟩] []).2
      [['d'], ['a'], ['b']] [7] (by decide)

end EdgarRs
